import Mathlib

/-!
Verification of the core logic of the bonjour-for-cpp library.

The development shallowly embeds the pure logic of the C++ sources:

* `bonjour_named` models the Identity value class of `bonjour_named.hpp`
  (name / regtype / domain strings, validated on construction by the
  functions of `impl` in `utils.hpp`).
* `bonjour_service` models the data carried by a resolver object of
  `bonjour_service.hpp` that is relevant to the peer list (its identity and
  resolved fullname / host / port fields).
* `bonjour_base_state`, `bonjour_base.spawn`, `bonjour_base.stop` model the
  session lifecycle of `bonjour_base.hpp`; the externally supplied DNS error
  code of the primitive operation is passed in as a parameter.
* `bonjour_browse.reply` models the browse callback of `bonjour_browse.hpp`
  acting on the internal service list, returning the mutated list together
  with the notification it raises.
* `bonjour_peer.list_peers` models the reconciliation loop of
  `bonjour_peer.hpp`.  The C++ iterates `m_peers` with a `std::list`
  iterator; an iterator into the evolving list is represented as a zipper
  (`done` = elements before the iterator, `todo` = the iterator position and
  everything after it).  Dropping a peer executes
  `it = --m_peers.erase(it)` followed by `it++`, which continues with the
  element after the erased one; the position (distance from `begin`) at
  which each `erase` happens is recorded so that well-definedness of the
  `--` decrement (which requires the erased element not to be the front of
  the list) can be analysed.

Flag and error constants are the values of `dns_sd.h`, the header of the
external discovery facility.
-/

/-- Constant `kDNSServiceErr_NoError` from `dns_sd.h`. -/
def kDNSServiceErr_NoError : Nat := 0

/-- Constant `kDNSServiceFlagsMoreComing` from `dns_sd.h`. -/
def kDNSServiceFlagsMoreComing : Nat := 1

/-- Constant `kDNSServiceFlagsAdd` from `dns_sd.h`. -/
def kDNSServiceFlagsAdd : Nat := 2

/-- `impl::validate_name` of `utils.hpp`: the name is stored verbatim. -/
def validate_name (name : String) : String := name

/-- `impl::validate_regtype` of `utils.hpp`: the regtype is stored verbatim. -/
def validate_regtype (regtype : String) : String := regtype

/-- `impl::validate_domain` of `utils.hpp`:
`(!domain || !strlen(domain)) ? "local." : domain`.  A null `const char *`
is modelled as `none`. -/
def validate_domain : Option String → String
  | none => "local."
  | some d => if d = "" then "local." else d

/-- The Identity value stored by `bonjour_named` (via `bonjour_base`):
name, registration type and domain strings. -/
structure bonjour_named where
  m_name : String
  m_regtype : String
  m_domain : String
deriving DecidableEq, Repr

/-- The `bonjour_named` constructor: all three strings pass through the
`impl` validation functions of `utils.hpp`. -/
def mkNamed (name regtype : String) (domain : Option String) : bonjour_named :=
  { m_name := validate_name name
    m_regtype := validate_regtype regtype
    m_domain := validate_domain domain }

/-- `bonjour_named::equal`: field-by-field case-sensitive string
comparison (`!strcmp` on each of name, regtype, domain). -/
def bonjour_named.equal (a b : bonjour_named) : Bool :=
  (a.m_name == b.m_name) && (a.m_regtype == b.m_regtype) && (a.m_domain == b.m_domain)

/-- `bonjour_named::find`, returning the index of the first element of the
list that compares `equal` to `n` (the iterator distance from `begin`), or
`none` for the end iterator. -/
def find_named (n : bonjour_named) : List bonjour_named → Option Nat
  | [] => none
  | e :: es => if e.equal n then some 0 else (find_named n es).map (· + 1)

/-- The data of a `bonjour_service` object that is relevant to the peer
list: its identity and the resolved fullname / host / port fields
(defaulted to empty / zero by the constructor).  The session thread state is
modelled separately by `bonjour_base_state`. -/
structure bonjour_service where
  named : bonjour_named
  m_fullname : String
  m_host : String
  m_port : Nat
deriving DecidableEq, Repr

/-- `bonjour_service`'s constructor from a `bonjour_named`:
fullname and host empty, `m_port(0)`. -/
def service_of_named (n : bonjour_named) : bonjour_service :=
  { named := n, m_fullname := "", m_host := "", m_port := 0 }

/-- `bonjour_named::find` lifted over the identity of a `bonjour_service`
(the C++ calls `it->find(services)` with `it` a `bonjour_service`
iterator; the search compares only the inherited `bonjour_named` part). -/
def bonjour_service.find (p : bonjour_service) (s : List bonjour_named) : Option Nat :=
  find_named p.named s

/-- Options structure `bonjour_peer_options` of `bonjour_peer.hpp`. -/
inductive peer_modes where
  | browse_only
  | register_only
  | both
deriving DecidableEq, Repr

/-- Options structure `bonjour_peer_options` of `bonjour_peer.hpp`. -/
structure bonjour_peer_options where
  m_mode : peer_modes := .both
  m_self_discover : Bool := false
deriving DecidableEq, Repr

/-- The condition under which the second loop of
`bonjour_peer::list_peers` emplaces a remaining browse entry as a new
peer: `m_options.m_self_discover || !it->equal(m_register)`. -/
def newPeerPass (opts : bonjour_peer_options) (reg : bonjour_named) (n : bonjour_named) : Bool :=
  opts.m_self_discover || !(n.equal reg)

/-- The second loop of `bonjour_peer::list_peers`: walks the remaining
browse entries in order and appends `bonjour_service(*it)` for each entry
that passes the self-discovery filter. -/
def emplaceNew (opts : bonjour_peer_options) (reg : bonjour_named) : List bonjour_named → List bonjour_service
  | [] => []
  | n :: ns =>
    if newPeerPass opts reg n then service_of_named n :: emplaceNew opts reg ns
    else emplaceNew opts reg ns

/-- The first loop of `bonjour_peer::list_peers`, with the `std::list`
iterator over `m_peers` represented as a zipper: `done` holds the peers
before the iterator (all already matched and retained), `todo` the peer at
the iterator and those after it, `s` the scratch list of browse entries.

For each peer the loop runs `it->find(services)`.  On a miss it executes
`it = --m_peers.erase(it)` and the trailing `it++`, so iteration continues
with the element after the erased one and `done` is unchanged; the position
of the erased element (its distance from `begin()`, i.e. `done.length`) is
recorded in the third component.  On a hit the matching entry is erased
from the scratch list and the iterator advances.

Returns (final `m_peers`, remaining scratch entries, recorded erase
positions). -/
def peersLoop (done : List bonjour_service) (todo : List bonjour_service)
    (s : List bonjour_named) : List bonjour_service × List bonjour_named × List Nat :=
  match todo with
  | [] => (done, s, [])
  | p :: rest =>
    match p.find s with
    | none =>
      let r := peersLoop done rest s
      (r.1, r.2.1, done.length :: r.2.2)
    | some j => peersLoop (done ++ [p]) rest (s.eraseIdx j)

/-- `bonjour_peer::list_peers`: reconciles the maintained peer list
`peers` against the browse snapshot `services` (the copy produced by
`m_browse.list_services`), then appends the remaining unmatched entries
subject to the self-discovery filter.  Returns the new `m_peers`, which is
also the list copied to the caller. -/
def bonjour_peer.list_peers (opts : bonjour_peer_options) (reg : bonjour_named)
    (peers : List bonjour_service) (services : List bonjour_named) : List bonjour_service :=
  let r := peersLoop [] peers services
  r.1 ++ emplaceNew opts reg r.2.1

/-- The positions (distances from `begin()`) at which
`bonjour_peer::list_peers` calls `m_peers.erase` during a run.  The
`--` applied to the iterator returned by such an `erase` is well-defined
exactly when that returned iterator is not `begin()`, i.e. when the
recorded position is nonzero. -/
def erasePositions (peers : List bonjour_service) (services : List bonjour_named) : List Nat :=
  (peersLoop [] peers services).2.2

example : validate_domain (some "") = "local." := by decide
example : validate_domain none = "local." := by decide
example : validate_domain (some "home.") = "home." := by decide

/-- Modelled from the spec's reconciliation step 2 ("For each existing peer
`p` in the maintained peer sequence, search `S` for a matching Identity; if
none found, drop `p` from the maintained sequence; if found, remove that
match from `S`").  Returns (retained peers, unconsumed entries of `S`). -/
def spec_step2 : List bonjour_service → List bonjour_named → List bonjour_service × List bonjour_named
  | [], s => ([], s)
  | p :: ps, s =>
    if p.named ∈ s then
      let r := spec_step2 ps (s.erase p.named)
      (p :: r.1, r.2)
    else spec_step2 ps s

/-- Modelled from the spec's `list_peers` steps 2-4: retain matched peers
consuming their matches, then append every remaining entry of `S` unless it
equals the coordinator's own Identity while `self_discover` is false. -/
def spec_reconcile (opts : bonjour_peer_options) (reg : bonjour_named)
    (peers : List bonjour_service) (snapshot : List bonjour_named) : List bonjour_service :=
  let r := spec_step2 peers snapshot
  r.1 ++ (r.2.filter (newPeerPass opts reg)).map service_of_named

theorem bonjour_named.equal_iff (a b : bonjour_named) : a.equal b = true ↔ a = b := by
  cases a; cases b
  simp [bonjour_named.equal, bonjour_named.mk.injEq, and_assoc]

theorem bonjour_named.equal_self (a : bonjour_named) : a.equal a = true := by
  simp [bonjour_named.equal_iff]

theorem find_named_eq_none {n : bonjour_named} {s : List bonjour_named} :
    find_named n s = none ↔ n ∉ s := by
  induction s with
  | nil => simp [find_named]
  | cons e es ih =>
    by_cases he : e.equal n
    · rw [bonjour_named.equal_iff] at he
      simp [find_named, he, bonjour_named.equal_self]
    · have hne : ¬(n = e) := fun h => he (by simp [h, bonjour_named.equal_self])
      simp [find_named, he, hne, ih]

theorem find_named_some_eraseIdx {n : bonjour_named} {s : List bonjour_named} {j : Nat}
    (h : find_named n s = some j) : s.eraseIdx j = s.erase n := by
  induction s generalizing j with
  | nil => simp [find_named] at h
  | cons e es ih =>
    by_cases he : e.equal n
    · rw [find_named, if_pos he] at h
      cases h
      rw [bonjour_named.equal_iff] at he
      simp [he, List.eraseIdx, List.erase_cons_head]
    · rw [find_named, if_neg he] at h
      have hne : ¬((e == n) = true) := fun hbeq =>
        he (by rw [bonjour_named.equal_iff]; exact eq_of_beq hbeq)
      cases hfind : find_named n es with
      | none => rw [hfind] at h; exact absurd h (by simp)
      | some k =>
        rw [hfind] at h
        have hj : j = k + 1 := by
          have : some (k + 1) = some j := by simpa using h
          exact (Option.some.inj this).symm
        subst hj
        rw [show (e :: es).eraseIdx (k + 1) = e :: es.eraseIdx k from rfl,
          List.erase_cons_tail (by simpa using hne), ih hfind]

theorem find_named_mem {n : bonjour_named} {s : List bonjour_named} {j : Nat}
    (h : find_named n s = some j) : n ∈ s := by
  by_contra hmem
  rw [← find_named_eq_none] at hmem
  simp [hmem] at h

/-- The iterator loop of `list_peers` computes the retained-peer and
leftover-entry components described by the spec's step 2, with the retained
peers appended after the peers already passed (`done`). -/
theorem peersLoop_eq_spec_step2 (todo : List bonjour_service) :
    ∀ (done : List bonjour_service) (s : List bonjour_named),
      (peersLoop done todo s).1 = done ++ (spec_step2 todo s).1 ∧
      (peersLoop done todo s).2.1 = (spec_step2 todo s).2 := by
  induction todo with
  | nil => intro done s; simp [peersLoop, spec_step2]
  | cons p ps ih =>
    intro done s
    by_cases hmem : p.named ∈ s
    · obtain ⟨j, hj⟩ : ∃ j, find_named p.named s = some j := by
        cases hfind : find_named p.named s with
        | none => exact absurd (find_named_eq_none.1 hfind) (not_not_intro hmem)
        | some j => exact ⟨j, rfl⟩
      have herase : s.eraseIdx j = s.erase p.named := find_named_some_eraseIdx hj
      rw [peersLoop, spec_step2]
      simp only [bonjour_service.find, hj, if_pos hmem, herase]
      have := ih (done ++ [p]) (s.erase p.named)
      simpa using this
    · have hnone : find_named p.named s = none := find_named_eq_none.2 hmem
      rw [peersLoop, spec_step2]
      simp only [bonjour_service.find, hnone, if_neg hmem]
      exact ih done s

/-- `emplaceNew` is filtering by the self-discovery condition followed by
construction of fresh `bonjour_service` objects. -/
theorem emplaceNew_eq (opts : bonjour_peer_options) (reg : bonjour_named)
    (l : List bonjour_named) :
    emplaceNew opts reg l = (l.filter (newPeerPass opts reg)).map service_of_named := by
  induction l with
  | nil => rfl
  | cons n ns ih =>
    by_cases h : newPeerPass opts reg n <;> simp [emplaceNew, h, ih]

/-- The code-level `list_peers` equals the spec-level reconciliation. -/
theorem list_peers_eq_spec (opts : bonjour_peer_options) (reg : bonjour_named)
    (peers : List bonjour_service) (services : List bonjour_named) :
    bonjour_peer.list_peers opts reg peers services = spec_reconcile opts reg peers services := by
  have h := peersLoop_eq_spec_step2 peers [] services
  rw [bonjour_peer.list_peers, spec_reconcile, h.1, h.2, emplaceNew_eq]
  simp

/-- Retained peers form a subsequence of the original maintained peers:
untouched peers keep their insertion order. -/
theorem spec_step2_fst_sublist (ps : List bonjour_service) :
    ∀ s : List bonjour_named, (spec_step2 ps s).1.Sublist ps := by
  induction ps with
  | nil => intro s; simp [spec_step2]
  | cons p ps ih =>
    intro s
    by_cases hmem : p.named ∈ s
    · rw [spec_step2, if_pos hmem]
      exact (ih (s.erase p.named)).cons₂ p
    · rw [spec_step2, if_neg hmem]
      exact (ih s).cons p

/-- Unconsumed snapshot entries form a subsequence of the snapshot:
new peers are later appended in the Browser's insertion order. -/
theorem spec_step2_snd_sublist (ps : List bonjour_service) :
    ∀ s : List bonjour_named, (spec_step2 ps s).2.Sublist s := by
  induction ps with
  | nil => intro s; simp [spec_step2]
  | cons p ps ih =>
    intro s
    by_cases hmem : p.named ∈ s
    · rw [spec_step2, if_pos hmem]
      exact (ih (s.erase p.named)).trans (List.erase_sublist p.named s)
    · rw [spec_step2, if_neg hmem]
      exact ih s

/-- Every retained peer is one of the original peers and its identity
occurs in the snapshot (a maintained peer with no matching identity is
dropped). -/
theorem spec_step2_fst_mem (ps : List bonjour_service) :
    ∀ (s : List bonjour_named) (q : bonjour_service),
      q ∈ (spec_step2 ps s).1 → q ∈ ps ∧ q.named ∈ s := by
  induction ps with
  | nil => intro s q hq; simp [spec_step2] at hq
  | cons p ps ih =>
    intro s q hq
    by_cases hmem : p.named ∈ s
    · rw [spec_step2, if_pos hmem] at hq
      rcases List.mem_cons.1 hq with hq | hq
      · exact ⟨by simp [hq], hq ▸ hmem⟩
      · obtain ⟨h1, h2⟩ := ih (s.erase p.named) q hq
        exact ⟨List.mem_cons_of_mem p h1, (List.erase_sublist p.named s).mem h2⟩
    · rw [spec_step2, if_neg hmem] at hq
      obtain ⟨h1, h2⟩ := ih s q hq
      exact ⟨List.mem_cons_of_mem p h1, h2⟩

/-- Every snapshot entry either survives unconsumed or was consumed by a
retained peer with that identity. -/
theorem spec_step2_cover (ps : List bonjour_service) :
    ∀ (s : List bonjour_named) (n : bonjour_named), n ∈ s →
      n ∈ (spec_step2 ps s).2 ∨ ∃ q ∈ (spec_step2 ps s).1, q.named = n := by
  induction ps with
  | nil => intro s n hn; exact Or.inl (by simpa [spec_step2] using hn)
  | cons p ps ih =>
    intro s n hn
    by_cases hmem : p.named ∈ s
    · rw [spec_step2, if_pos hmem]
      by_cases hpn : n = p.named
      · exact Or.inr ⟨p, List.mem_cons_self p _, hpn.symm⟩
      · have hn' : n ∈ s.erase p.named := (List.mem_erase_of_ne hpn).2 hn
        rcases ih (s.erase p.named) n hn' with h | ⟨q, hq1, hq2⟩
        · exact Or.inl h
        · exact Or.inr ⟨q, List.mem_cons_of_mem p hq1, hq2⟩
    · rw [spec_step2, if_neg hmem]
      exact ih s n hn

/-- Replaying reconciliation on the previously retained peers consumes the
same snapshot entries and retains all of them again: drops do not change
the scratch list, so the pool seen by the retained peers is identical. -/
theorem spec_step2_replay (ps : List bonjour_service) :
    ∀ (s : List bonjour_named) (qs : List bonjour_service),
      spec_step2 ((spec_step2 ps s).1 ++ qs) s =
        ((spec_step2 ps s).1 ++ (spec_step2 qs (spec_step2 ps s).2).1,
          (spec_step2 qs (spec_step2 ps s).2).2) := by
  induction ps with
  | nil => intro s qs; simp [spec_step2]
  | cons p ps ih =>
    intro s qs
    by_cases hmem : p.named ∈ s
    · have hcons : spec_step2 (p :: ps) s =
          (p :: (spec_step2 ps (s.erase p.named)).1, (spec_step2 ps (s.erase p.named)).2) := by
        rw [spec_step2, if_pos hmem]
      rw [hcons]
      simp only [List.cons_append]
      rw [show ∀ ts : List bonjour_service, spec_step2 (p :: ts) s =
          (p :: (spec_step2 ts (s.erase p.named)).1, (spec_step2 ts (s.erase p.named)).2) from
        fun ts => by rw [spec_step2, if_pos hmem]]
      rw [ih (s.erase p.named) qs]
    · rw [spec_step2, if_neg hmem]
      exact ih s qs

/-- A scratch entry failing a pointwise predicate satisfied by every peer
being processed is never consumed: it moves through reconciliation
untouched. -/
theorem spec_step2_skip (pass : bonjour_named → Bool) (qs : List bonjour_service) :
    ∀ (l : List bonjour_named) (b : bonjour_named),
      (∀ q ∈ qs, pass q.named = true) → pass b = false →
      spec_step2 qs (b :: l) = ((spec_step2 qs l).1, b :: (spec_step2 qs l).2) := by
  induction qs with
  | nil => intro l b _ _; simp [spec_step2]
  | cons q qs ih =>
    intro l b hall hb
    have hq : pass q.named = true := hall q (List.mem_cons_self q qs)
    have hne : q.named ≠ b := fun h => by rw [h, hb] at hq; cases hq
    have hall' : ∀ r ∈ qs, pass r.named = true := fun r hr => hall r (List.mem_cons_of_mem q hr)
    by_cases hmem : q.named ∈ l
    · have hmem' : q.named ∈ b :: l := List.mem_cons_of_mem b hmem
      rw [spec_step2, if_pos hmem']
      have herase : (b :: l).erase q.named = b :: l.erase q.named :=
        List.erase_cons_tail (by simpa using fun h => hne h.symm)
      rw [herase, ih (l.erase q.named) b hall' hb, spec_step2, if_pos hmem]
    · have hmem' : q.named ∉ b :: l := by
        intro h
        rcases List.mem_cons.1 h with h | h
        · exact hne h
        · exact hmem h
      rw [spec_step2, if_neg hmem', ih l b hall' hb, spec_step2, if_neg hmem]

/-- Replaying reconciliation on the freshly appended peers against the pool
they came from retains all of them and leaves exactly the entries that
failed the filter. -/
theorem spec_step2_new (pass : bonjour_named → Bool) :
    ∀ l : List bonjour_named,
      spec_step2 ((l.filter pass).map service_of_named) l =
        ((l.filter pass).map service_of_named, l.filter (fun x => !(pass x))) := by
  intro l
  induction l with
  | nil => simp [spec_step2]
  | cons a l ih =>
    by_cases ha : pass a
    · rw [List.filter_cons_of_pos ha]
      simp only [List.map_cons]
      have hnamed : (service_of_named a).named = a := rfl
      rw [spec_step2, if_pos (by rw [hnamed]; exact List.mem_cons_self a l)]
      rw [hnamed, List.erase_cons_head, ih]
      simp [List.filter_cons, ha]
    · have hb : pass a = false := by simpa using ha
      rw [List.filter_cons_of_neg ha]
      rw [spec_step2_skip pass _ l a ?hall hb, ih]
      · simp [List.filter_cons, hb]
      · intro q hq
        rcases List.mem_map.1 hq with ⟨x, hx, rfl⟩
        exact (List.mem_filter.1 hx).2

/-- Reconciliation is idempotent at the spec level: a second run retains
every peer of the first run's output and appends nothing new. -/
theorem spec_reconcile_idem (opts : bonjour_peer_options) (reg : bonjour_named)
    (peers : List bonjour_service) (s : List bonjour_named) :
    spec_reconcile opts reg (spec_reconcile opts reg peers s) s =
      spec_reconcile opts reg peers s := by
  unfold spec_reconcile
  rw [spec_step2_replay peers s
    ((((spec_step2 peers s).2).filter (newPeerPass opts reg)).map service_of_named)]
  rw [spec_step2_new (newPeerPass opts reg) (spec_step2 peers s).2]
  simp [List.filter_filter]

/-- Example identities used in the concrete scenarios below. -/
def regSelf : bonjour_named := mkNamed "me" "_test._tcp" (some "local.")

/-- Example identities used in the concrete scenarios below. -/
def idA : bonjour_named := mkNamed "svcA" "_test._tcp" (some "local.")

/-- Example identities used in the concrete scenarios below. -/
def idB : bonjour_named := mkNamed "svcB" "_test._tcp" (some "local.")

/-- Example identities used in the concrete scenarios below. -/
def idC : bonjour_named := mkNamed "svcC" "_test._tcp" (some "local.")

/-- Example peers used in the concrete scenarios below. -/
def svcA : bonjour_service := service_of_named idA

/-- Example peers used in the concrete scenarios below. -/
def svcB : bonjour_service := service_of_named idB

/-- Example peers used in the concrete scenarios below. -/
def svcC : bonjour_service := service_of_named idC

example : bonjour_peer.list_peers {} regSelf [svcA, svcB] [idB, idC] = [svcB, svcC] := by decide

example : erasePositions [svcA, svcB] [idB] = [0] := by decide

/-- Claim C1: `bonjour_peer::list_peers` implements the spec's
reconciliation: every maintained peer with no matching Identity in the
snapshot is dropped (so each returned peer's identity is matched in the
snapshot), every maintained peer with a match is retained with its match
consumed, and every unconsumed snapshot entry is appended as a new peer
(subject to the self-discovery filter, as the spec's step 3 states); in
particular maintained peers [A, B] against snapshot [B, C] yield [B, C] in
that relative order. -/
theorem C1_reconciliation_correct :
    (∀ (opts : bonjour_peer_options) (reg : bonjour_named) (peers : List bonjour_service)
        (services : List bonjour_named),
      bonjour_peer.list_peers opts reg peers services = spec_reconcile opts reg peers services ∧
      ∀ q ∈ bonjour_peer.list_peers opts reg peers services,
        ∃ n ∈ services, n.equal q.named = true) ∧
    bonjour_peer.list_peers {} regSelf [svcA, svcB] [idB, idC] = [svcB, svcC] := by
  refine ⟨fun opts reg peers services => ⟨list_peers_eq_spec opts reg peers services, ?_⟩,
    by decide⟩
  intro q hq
  rw [list_peers_eq_spec, spec_reconcile] at hq
  rcases List.mem_append.1 hq with hq | hq
  · obtain ⟨-, h2⟩ := spec_step2_fst_mem peers services q hq
    exact ⟨q.named, h2, bonjour_named.equal_self q.named⟩
  · rcases List.mem_map.1 hq with ⟨n, hn, rfl⟩
    have hn' : n ∈ (spec_step2 peers services).2 := (List.mem_filter.1 hn).1
    exact ⟨n, (spec_step2_snd_sublist peers services).mem hn',
      bonjour_named.equal_self n⟩

theorem C1_witness :
    ∃ n ∈ [idB, idC], n.equal svcB.named = true :=
  (C1_reconciliation_correct.1 {} regSelf [svcA, svcB] [idB, idC]).2 svcB (by decide)

/-- Claim C2: reconciliation is idempotent — running `list_peers` a second
time on its own output with an unchanged Browser snapshot returns the same
list — and order is preserved: the retained peers are a subsequence of the
maintained peers, the unconsumed entries (from which new peers are built,
in order) are a subsequence of the Browser snapshot, and the output is the
retained peers followed by the new peers in snapshot order. -/
theorem C2_reconciliation_idem :
    ∀ (opts : bonjour_peer_options) (reg : bonjour_named) (peers : List bonjour_service)
      (s : List bonjour_named),
      bonjour_peer.list_peers opts reg (bonjour_peer.list_peers opts reg peers s) s =
        bonjour_peer.list_peers opts reg peers s ∧
      (spec_step2 peers s).1.Sublist peers ∧
      (spec_step2 peers s).2.Sublist s ∧
      bonjour_peer.list_peers opts reg peers s =
        (spec_step2 peers s).1 ++
          (((spec_step2 peers s).2.filter (newPeerPass opts reg)).map service_of_named) := by
  intro opts reg peers s
  refine ⟨?_, spec_step2_fst_sublist peers s, spec_step2_snd_sublist peers s, ?_⟩
  · rw [list_peers_eq_spec, list_peers_eq_spec]
    exact spec_reconcile_idem opts reg peers s
  · rw [list_peers_eq_spec]; rfl

/-- Claim C3: every unconsumed snapshot entry is appended as a new peer
exactly when it passes the self-discovery filter
(`m_self_discover || !equal(m_register)`): with `self_discover` false no
appended peer carries the coordinator's own registered Identity, and with
`self_discover` true a snapshot occurrence of the coordinator's own
Identity is included in the peer list. -/
theorem C3_self_filtering :
    ∀ (opts : bonjour_peer_options) (reg : bonjour_named) (peers : List bonjour_service)
      (snap : List bonjour_named),
      bonjour_peer.list_peers opts reg peers snap =
        (spec_step2 peers snap).1 ++ emplaceNew opts reg (spec_step2 peers snap).2 ∧
      (∀ n ∈ (spec_step2 peers snap).2, newPeerPass opts reg n = true →
        service_of_named n ∈ bonjour_peer.list_peers opts reg peers snap) ∧
      (opts.m_self_discover = false →
        ∀ q ∈ emplaceNew opts reg (spec_step2 peers snap).2, q.named.equal reg = false) ∧
      (opts.m_self_discover = true → reg ∈ snap →
        ∃ q ∈ bonjour_peer.list_peers opts reg peers snap, q.named = reg) := by
  intro opts reg peers snap
  have hout : bonjour_peer.list_peers opts reg peers snap =
      (spec_step2 peers snap).1 ++ emplaceNew opts reg (spec_step2 peers snap).2 := by
    rw [list_peers_eq_spec, emplaceNew_eq]; rfl
  have hpass : ∀ n ∈ (spec_step2 peers snap).2, newPeerPass opts reg n = true →
      service_of_named n ∈ bonjour_peer.list_peers opts reg peers snap := by
    intro n hn hp
    rw [hout, emplaceNew_eq]
    exact List.mem_append_right _ (List.mem_map_of_mem service_of_named
      (List.mem_filter.2 ⟨hn, hp⟩))
  refine ⟨hout, hpass, ?_, ?_⟩
  · intro hsd q hq
    rw [emplaceNew_eq] at hq
    rcases List.mem_map.1 hq with ⟨n, hn, rfl⟩
    have h := (List.mem_filter.1 hn).2
    rw [newPeerPass, hsd, Bool.false_or, Bool.not_eq_true'] at h
    exact h
  · intro hsd hreg
    rcases spec_step2_cover peers snap reg hreg with h | ⟨q, hq1, hq2⟩
    · exact ⟨service_of_named reg, hpass reg h (by simp [newPeerPass, hsd]), rfl⟩
    · exact ⟨q, by rw [hout]; exact List.mem_append_left _ hq1, hq2⟩

theorem C3_witness :
    ∃ q ∈ bonjour_peer.list_peers { m_self_discover := true } regSelf [] [regSelf],
      q.named = regSelf :=
  (C3_self_filtering { m_self_discover := true } regSelf [] [regSelf]).2.2.2
    rfl (by decide)

/-- The thread-pointer state of a `bonjour_base` session: `m_thread` holds
`some h` while a worker bound to handle `h` is running, `none` when idle. -/
structure bonjour_base_state where
  m_thread : Option Nat
deriving DecidableEq, Repr

/-- `bonjour_base::active`: whether `m_thread` is non-null. -/
def bonjour_base.active (st : bonjour_base_state) : Bool :=
  st.m_thread.isSome

/-- The effect of `bonjour_base::stop` on the session state: when active,
the worker is signalled and the thread pointer nulled; when idle it is a
no-op. -/
def bonjour_base.stop (st : bonjour_base_state) : bonjour_base_state :=
  if bonjour_base.active st then { m_thread := none } else st

/-- `bonjour_base::spawn`: under the lock, if the session is not active,
invoke the bound primitive operation — its status `err` and the handle it
would return are supplied by the external facility; on
`kDNSServiceErr_NoError` store the newly spawned thread, otherwise
`stop()`; finally return `active()`.  The last component counts how many
times the primitive operation was invoked. -/
def bonjour_base.spawn (st : bonjour_base_state) (err : Nat) (handle : Nat) :
    bonjour_base_state × Bool × Nat :=
  if bonjour_base.active st then (st, bonjour_base.active st, 0)
  else if err = kDNSServiceErr_NoError then
    let st' : bonjour_base_state := { m_thread := some handle }
    (st', bonjour_base.active st', 1)
  else
    let st' := bonjour_base.stop st
    (st', bonjour_base.active st', 1)

/-- After `stop` the session is never active. -/
theorem bonjour_base.active_stop (st : bonjour_base_state) :
    bonjour_base.active (bonjour_base.stop st) = false := by
  cases h : st.m_thread with
  | none => simp [bonjour_base.stop, bonjour_base.active, h]
  | some t => simp [bonjour_base.stop, bonjour_base.active, h]

/-- Claim C6: `start` (via `spawn`) on an Active session is a no-op that
returns true without invoking the primitive operation; and when the
primitive operation returns a non-success status, the session is left Idle
with an empty thread pointer, `start` returns false, and the primitive was
invoked exactly once (no retry). -/
theorem C6_start_contract :
    ∀ (st : bonjour_base_state) (err handle : Nat),
      (bonjour_base.active st = true →
        bonjour_base.spawn st err handle = (st, true, 0)) ∧
      (bonjour_base.active st = false → err ≠ kDNSServiceErr_NoError →
        bonjour_base.spawn st err handle = (st, false, 1) ∧ st.m_thread = none) := by
  intro st err handle
  constructor
  · intro h
    rw [bonjour_base.spawn, if_pos h, h]
  · intro h he
    have hnone : st.m_thread = none := by
      cases hthread : st.m_thread with
      | none => rfl
      | some t => rw [bonjour_base.active, hthread] at h; cases h
    refine ⟨?_, hnone⟩
    rw [bonjour_base.spawn, if_neg (by rw [h]; exact Bool.false_ne_true), if_neg he,
      bonjour_base.stop, if_neg (by rw [h]; exact Bool.false_ne_true)]
    show (st, bonjour_base.active st, 1) = (st, false, 1)
    rw [h]

theorem C6_witness :
    bonjour_base.spawn { m_thread := some 5 } 0 7 = ({ m_thread := some 5 }, true, 0) ∧
    bonjour_base.spawn { m_thread := none } 3 7 = ({ m_thread := none }, false, 1) :=
  ⟨(C6_start_contract { m_thread := some 5 } 0 7).1 rfl,
    ((C6_start_contract { m_thread := none } 3 7).2 rfl (by decide)).1⟩

/-- Events observable from one invocation of the generated
`callback_type::reply` adapter, in order of occurrence. -/
inductive callback_event where
  | typed_reply
  | session_stopped
  | stop_notified
deriving DecidableEq, Repr

/-- `bonjour_base::callback_type::reply`: when the error-code argument
equals `kDNSServiceErr_NoError` the adapter locks the owning object and
invokes its typed `reply` handler (abstracted as `handler`); otherwise it
invokes `stop_notify(m_notify.m_stop, obj)`, which calls `stop()` and then
`notify`, and `notify` invokes the registered stop callback only when one
is present (`has_stop_cb`).  Returns the session state and the ordered
event trace. -/
def callback_reply (err : Nat) (handler : bonjour_base_state → bonjour_base_state)
    (has_stop_cb : Bool) (st : bonjour_base_state) :
    bonjour_base_state × List callback_event :=
  if err = kDNSServiceErr_NoError then (handler st, [.typed_reply])
  else
    (bonjour_base.stop st,
      .session_stopped :: (if has_stop_cb then [.stop_notified] else []))

/-- Claim C7: for a reply whose error code differs from the no-error
sentinel, the adapter never invokes the typed reply handler; it stops the
session first and invokes the registered stop callback afterwards, and
when no stop callback is registered nothing is notified. -/
theorem C7_error_dispatch :
    ∀ (err : Nat) (handler : bonjour_base_state → bonjour_base_state)
      (has_stop_cb : Bool) (st : bonjour_base_state),
      err ≠ kDNSServiceErr_NoError →
      callback_event.typed_reply ∉ (callback_reply err handler has_stop_cb st).2 ∧
      (callback_reply err handler has_stop_cb st).1 = bonjour_base.stop st ∧
      (callback_reply err handler has_stop_cb st).2 =
        .session_stopped :: (if has_stop_cb then [.stop_notified] else []) ∧
      (has_stop_cb = false →
        (callback_reply err handler has_stop_cb st).2 = [.session_stopped]) := by
  intro err handler has_stop_cb st herr
  rw [callback_reply, if_neg herr]
  refine ⟨?_, rfl, rfl, ?_⟩
  · cases has_stop_cb <;> simp
  · intro h; rw [h]; rfl

theorem C7_witness :
    callback_event.typed_reply ∉ (callback_reply 42 id true { m_thread := some 1 }).2 ∧
    (callback_reply 42 id true { m_thread := some 1 }).2 =
      [callback_event.session_stopped, callback_event.stop_notified] :=
  ⟨(C7_error_dispatch 42 id true { m_thread := some 1 } (by decide)).1,
    (C7_error_dispatch 42 id true { m_thread := some 1 } (by decide)).2.2.1⟩

/-- The state of a `bonjour_service` resolver object: its identity, the
resolved fields, and its session state. -/
structure bonjour_service_state where
  identity : bonjour_named
  m_fullname : String
  m_host : String
  m_port : Nat
  session : bonjour_base_state
deriving DecidableEq, Repr

/-- The `bonjour_service(bonjour_named, notify)` constructor: fullname and
host empty, `m_port(0)`, idle session, and `resolve()` — i.e. `spawn` with
the facility-supplied status `err` and handle — is called exactly when
`strlen(name())` is nonzero.  The second component records whether
`resolve()` was invoked. -/
def bonjour_service.construct (n : bonjour_named) (err : Nat) (handle : Nat) :
    bonjour_service_state × Bool :=
  let st0 : bonjour_service_state :=
    { identity := n, m_fullname := "", m_host := "", m_port := 0,
      session := { m_thread := none } }
  if n.m_name = "" then (st0, false)
  else ({ st0 with session := (bonjour_base.spawn st0.session err handle).1 }, true)

/-- Notification raised by the resolver's reply handler. -/
inductive resolve_event where
  | resolved (fullname host : String) (port : Nat) (complete : Bool)
deriving DecidableEq, Repr

/-- `bonjour_service::reply`: stores fullname, host and port from the
reply arguments, stops its own session, then raises the "resolved"
notification whose completion flag is the negation of the
`kDNSServiceFlagsMoreComing` bit of the flags argument. -/
def bonjour_service.reply (st : bonjour_service_state) (flags : Nat)
    (fullname host : String) (port : Nat) : bonjour_service_state × resolve_event :=
  let complete := (flags &&& kDNSServiceFlagsMoreComing) == 0
  ({ st with
      m_fullname := fullname, m_host := host, m_port := port,
      session := bonjour_base.stop st.session },
    .resolved fullname host port complete)

/-- Example identity for the resolver scenario of the spec. -/
def peer1Id : bonjour_named := mkNamed "peer1" "_test._tcp" (some "local.")

/-- Claim C4: a resolver constructed with a non-empty name immediately
starts resolution; every resolve reply stores fullname, host and port from
the reply arguments, stops the session (leaving it Idle), and raises a
"resolved" notification whose completion flag is the negation of the
more-coming bit; in the spec's scenario the reply
`(0, "peer1._test._tcp.local.", "host.local.", 9000)` sets all three
fields, reports `complete = true` and leaves the session Idle. -/
theorem C4_resolver_one_shot :
    (∀ (n : bonjour_named) (err handle : Nat), n.m_name ≠ "" →
      (bonjour_service.construct n err handle).2 = true) ∧
    (∀ (st : bonjour_service_state) (flags : Nat) (fullname host : String) (port : Nat),
      (bonjour_service.reply st flags fullname host port).1.m_fullname = fullname ∧
      (bonjour_service.reply st flags fullname host port).1.m_host = host ∧
      (bonjour_service.reply st flags fullname host port).1.m_port = port ∧
      bonjour_base.active (bonjour_service.reply st flags fullname host port).1.session = false ∧
      (bonjour_service.reply st flags fullname host port).2 =
        .resolved fullname host port ((flags &&& kDNSServiceFlagsMoreComing) == 0)) ∧
    (bonjour_base.active (bonjour_service.construct peer1Id 0 7).1.session = true ∧
      bonjour_service.reply (bonjour_service.construct peer1Id 0 7).1 0
          "peer1._test._tcp.local." "host.local." 9000 =
        ({ identity := peer1Id, m_fullname := "peer1._test._tcp.local.",
            m_host := "host.local.", m_port := 9000, session := { m_thread := none } },
          .resolved "peer1._test._tcp.local." "host.local." 9000 true)) := by
  refine ⟨?_, ?_, by decide, by decide⟩
  · intro n err handle h
    rw [bonjour_service.construct]
    simp only [if_neg h]
  · intro st flags fullname host port
    exact ⟨rfl, rfl, rfl, bonjour_base.active_stop st.session, rfl⟩

theorem C4_witness :
    (bonjour_service.construct peer1Id 0 7).2 = true ∧
    (bonjour_service.reply (bonjour_service.construct peer1Id 0 7).1 0
        "peer1._test._tcp.local." "host.local." 9000).1.m_host = "host.local." :=
  ⟨C4_resolver_one_shot.1 peer1Id 0 7 (by decide),
    (C4_resolver_one_shot.2.1 (bonjour_service.construct peer1Id 0 7).1 0
      "peer1._test._tcp.local." "host.local." 9000).2.1⟩

/-- Notification raised by the browse reply handler (the `m_add` or
`m_remove` callback, which fires in every case and receives the raw reply
strings and the completion flag). -/
inductive browse_event where
  | added (name regtype domain : String) (complete : Bool)
  | removed (name regtype domain : String) (complete : Bool)
deriving DecidableEq, Repr

/-- `bonjour_browse::reply`: builds a `bonjour_named` from the reply's
name / regtype / domain, looks it up in the internal service list; with the
add flag set an absent identity is appended (`push_back`), with the add
flag clear a present identity is erased; in all other cases the list is
unchanged; the corresponding notification fires in every case with
completion flag the negation of the more-coming bit. -/
def bonjour_browse.reply (m_services : List bonjour_named) (flags : Nat)
    (name regtype domain : String) : List bonjour_named × browse_event :=
  let complete := (flags &&& kDNSServiceFlagsMoreComing) == 0
  let named := mkNamed name regtype (some domain)
  let it := find_named named m_services
  if flags &&& kDNSServiceFlagsAdd ≠ 0 then
    (match it with
      | none => m_services ++ [named]
      | some _ => m_services,
      .added name regtype domain complete)
  else
    (match it with
      | none => m_services
      | some j => m_services.eraseIdx j,
      .removed name regtype domain complete)

/-- Claim C5: the browse reply appends the identity exactly when the add
flag is set and the identity is absent, erases its first occurrence exactly
when the add flag is clear, leaves the list unchanged otherwise, and in
every case fires the corresponding added / removed notification (also on
duplicate events) with completion flag the negation of the more-coming
bit; the spec's scenario (add of peer1 into an empty list, then a remove of
the same identity) transitions the list [] to [peer1] and back to [] with
"added" then "removed" notifications. -/
theorem C5_browse_reply :
    (∀ (m_services : List bonjour_named) (flags : Nat) (name regtype domain : String),
      (bonjour_browse.reply m_services flags name regtype domain).1 =
        (if flags &&& kDNSServiceFlagsAdd ≠ 0 then
          (if mkNamed name regtype (some domain) ∈ m_services then m_services
            else m_services ++ [mkNamed name regtype (some domain)])
        else m_services.erase (mkNamed name regtype (some domain))) ∧
      (bonjour_browse.reply m_services flags name regtype domain).2 =
        (if flags &&& kDNSServiceFlagsAdd ≠ 0 then
          browse_event.added name regtype domain ((flags &&& kDNSServiceFlagsMoreComing) == 0)
        else
          browse_event.removed name regtype domain
            ((flags &&& kDNSServiceFlagsMoreComing) == 0))) ∧
    bonjour_browse.reply [] 2 "peer1" "_test._tcp" "local." =
      ([peer1Id], .added "peer1" "_test._tcp" "local." true) ∧
    bonjour_browse.reply [peer1Id] 0 "peer1" "_test._tcp" "local." =
      ([], .removed "peer1" "_test._tcp" "local." true) := by
  refine ⟨?_, by decide, by decide⟩
  intro m_services flags name regtype domain
  by_cases hadd : flags &&& kDNSServiceFlagsAdd ≠ 0
  · rw [bonjour_browse.reply]
    simp only [if_pos hadd]
    by_cases hmem : mkNamed name regtype (some domain) ∈ m_services
    · obtain ⟨j, hj⟩ : ∃ j, find_named (mkNamed name regtype (some domain)) m_services = some j := by
        cases hf : find_named (mkNamed name regtype (some domain)) m_services with
        | none => exact absurd (find_named_eq_none.1 hf) (not_not_intro hmem)
        | some j => exact ⟨j, rfl⟩
      rw [hj, if_pos hmem]
      exact ⟨rfl, trivial⟩
    · rw [find_named_eq_none.2 hmem, if_neg hmem]
      exact ⟨rfl, trivial⟩
  · rw [bonjour_browse.reply]
    simp only [if_neg hadd]
    cases hf : find_named (mkNamed name regtype (some domain)) m_services with
    | none =>
      exact ⟨(List.erase_of_not_mem (find_named_eq_none.1 hf)).symm, trivial⟩
    | some j =>
      exact ⟨find_named_some_eraseIdx hf, trivial⟩

/-- Claim C8: construction with a null or empty domain stores the
canonical root domain string "local."; a non-empty domain is preserved
verbatim; name and service type are stored verbatim. -/
theorem C8_domain_defaulting :
    ∀ (name regtype d : String) (dom : Option String),
      (mkNamed name regtype none).m_domain = "local." ∧
      (mkNamed name regtype (some "")).m_domain = "local." ∧
      (d ≠ "" → (mkNamed name regtype (some d)).m_domain = d) ∧
      (mkNamed name regtype dom).m_name = name ∧
      (mkNamed name regtype dom).m_regtype = regtype := by
  intro name regtype d dom
  refine ⟨rfl, rfl, ?_, rfl, rfl⟩
  intro hd
  rw [mkNamed]
  show validate_domain (some d) = d
  rw [validate_domain, if_neg hd]

theorem C8_witness :
    (mkNamed "svc" "_x._tcp" (some "home.")).m_domain = "home." :=
  (C8_domain_defaulting "svc" "_x._tcp" "home." (some "home.")).2.2.1 (by decide)

/-- The actions of one call to `bonjour_base::stop` on its own lock and on
the worker thread. -/
inductive stop_event where
  | acquire_lock
  | signal_worker
  | clear_thread
  | release_lock
deriving DecidableEq, Repr

/-- The action sequence of the `bonjour_base::stop` body in the documented
header variant (the one carrying the note "Don't hold the lock whilst
stopping the thread"): when active, `m_thread->stop()` runs first, the
session lock is acquired afterwards, the thread pointer is nulled and the
lock is released on scope exit. -/
def stop_trace_doc (isActive : Bool) : List stop_event :=
  if isActive then [.signal_worker, .acquire_lock, .clear_thread, .release_lock] else []

/-- The action sequence of the other `bonjour_base::stop` body shipped in
the repository (the undocumented header variant): when active, the session
lock is acquired first and `m_thread->stop()` runs while it is held. -/
def stop_trace_alt (isActive : Bool) : List stop_event :=
  if isActive then [.acquire_lock, .signal_worker, .clear_thread, .release_lock] else []

/-- Whether the session's own lock is held at the first `signal_worker`
event of the trace, given whether it is held on entry. -/
def lock_held_at_signal : List stop_event → Bool → Bool
  | [], _ => false
  | .acquire_lock :: tr, _ => lock_held_at_signal tr true
  | .release_lock :: tr, _ => lock_held_at_signal tr false
  | .signal_worker :: _, held => held
  | .clear_thread :: tr, held => lock_held_at_signal tr held

/-- Claim C9: in the documented `stop` variant the worker is signalled
with the session's lock not held, but in the repository's other `stop`
variant the lock is acquired before the signal and is held at the moment
the worker is signalled, contradicting the claim (and the documented
variant's own comment). -/
theorem C9_stop_lock_order :
    lock_held_at_signal (stop_trace_doc true) false = false ∧
    lock_held_at_signal (stop_trace_alt true) false = true := by
  exact ⟨rfl, rfl⟩

/-- Claim C10 (amended): the iterator returned by `m_peers.erase(it)` is
the list's `begin()` iterator — so the following decrement is applied to
`begin()` and has no predecessor — whenever the peer being dropped is at
the front of the current list; in particular whenever the first maintained
peer has no match in the snapshot, position 0 is recorded. -/
theorem C10_erase_at_begin :
    ∀ (p : bonjour_service) (ps : List bonjour_service) (s : List bonjour_named),
      find_named p.named s = none → 0 ∈ erasePositions (p :: ps) s := by
  intro p ps s h
  rw [erasePositions, peersLoop]
  simp [bonjour_service.find, h]

theorem C10_witness :
    0 ∈ erasePositions [svcA] [] :=
  C10_erase_at_begin svcA [] [] rfl

/-- Claim C10 counterexample: with maintained peers `[svcA, svcB]` and
snapshot `[idB]`, the unmatched peer `svcA` is dropped at position 0, so
the iterator returned by `erase` is exactly the list's `begin()` iterator;
the claim that the returned iterator always has a predecessor is false. -/
theorem C10_counterexample :
    0 ∈ erasePositions [svcA, svcB] [idB] := by
  decide
